import Mathlib

/-!
# Verification of the auction lifecycle core of `pitauc_bot`

A shallow embedding of the auction state machine of the bot: the data model
(`Auction`, `Bid`, `User` rows held in a `DB` record), the bid-acceptance
transaction (`processBidSafe`, from `handlers/auction.py`), auction closure
(`endAuction`, from `AuctionTimerManager._end_auction` in `utils/timer.py`),
timer scheduling and restoration (`startAuctionTimer`,
`restoreTimersImproved`), the reconciliation sweep
(`checkAndCompleteExpiredAuctions`), bid cancellation
(`cancelLastBid`, from `handlers/user.py`) and auction creation/deletion
(`adminCreateAuction`, `adminDeleteAuction`, from `handlers/admin.py`).

Conventions of the embedding:
* Monetary amounts (Python floats in the source, which the spec itself flags
  as a latent precision gap) are modelled as exact integers in minor units
  (the bot validates prices to at most two decimal places); every property
  proved here is an ordering/equality property that does not depend on the
  numeric representation.
* Timestamps (`datetime.datetime`) are modelled as integers (minutes); a
  `timedelta(minutes=timeout)` addition becomes integer addition.
* The `status` column is a plain string, exactly as in the source
  (`'active'` / `'ended'`).
* A SQL table is a `List` of rows.  The list order is the physical row order;
  SQL guarantees nothing about the order in which rows with equal sort keys
  are returned by `ORDER BY`, so queries such as
  `ORDER BY amount DESC LIMIT 1` are embedded as "first row with maximal key
  in the given row order" and theorems must not silently assume a
  `createdAt`-sorted row order.
* Each handler is a pure function `DB → … → DB × Outcome`; the sequential
  execution of one transaction at a time models the serialization that the
  source obtains from `with_for_update()` row locks.
-/

namespace PitaucBot

/-- A row of the `users` table (`database/models.py`, class `User`).
Only the columns the verified handlers read are carried. -/
structure User where
  id : Nat
  telegramId : Nat
  isConfirmed : Bool
deriving DecidableEq, Repr

/-- A row of the `auctions` table (`database/models.py`, class `Auction`). -/
structure Auction where
  id : Nat
  startPrice : Int
  stepPrice : Int
  currentPrice : Int
  status : String
  winnerId : Option Nat
  lastBidTime : Int
  createdAt : Int
  endsAt : Option Int
  endedAt : Option Int
deriving DecidableEq, Repr

/-- A row of the `bids` table (`database/models.py`, class `Bid`). -/
structure Bid where
  id : Nat
  auctionId : Nat
  userId : Nat
  amount : Int
  createdAt : Int
deriving DecidableEq, Repr

/-- The persistent store: one list of rows per table, in physical row order. -/
structure DB where
  auctions : List Auction
  bids : List Bid
  users : List User
deriving DecidableEq, Repr

/-- `SELECT * FROM auctions WHERE id = :aid LIMIT 1`. -/
def findAuction (db : DB) (aid : Nat) : Option Auction :=
  db.auctions.find? (fun a => a.id == aid)

/-- `SELECT * FROM auctions WHERE id = :aid AND status = 'active'`
(the guarded load used by `process_bid_safe` and `_end_auction`). -/
def findActiveAuction (db : DB) (aid : Nat) : Option Auction :=
  db.auctions.find? (fun a => a.id == aid && a.status == "active")

/-- `SELECT * FROM users WHERE telegram_id = :tid`. -/
def findUserByTelegramId (db : DB) (tid : Nat) : Option User :=
  db.users.find? (fun u => u.telegramId == tid)

/-- `SELECT * FROM bids WHERE auction_id = :aid` (row order preserved). -/
def bidsFor (db : DB) (aid : Nat) : List Bid :=
  db.bids.filter (fun b => b.auctionId == aid)

/-- `ORDER BY amount DESC LIMIT 1` over a list of bid rows: the first row,
in physical row order, whose amount is maximal.  The source never adds a
tie-break column to this query, so on equal amounts the result depends on
the row order the store happens to produce. -/
def topBidByAmount : List Bid → Option Bid
  | [] => none
  | b :: bs =>
    match topBidByAmount bs with
    | none => some b
    | some c => if c.amount > b.amount then some c else some b

/-- `UPDATE auctions SET … WHERE id = :aid` (applies `f` to every row whose
primary key matches; with unique ids this is the single-row update of the
source). -/
def updateAuction (db : DB) (aid : Nat) (f : Auction → Auction) : DB :=
  { db with auctions := db.auctions.map (fun a => if a.id == aid then f a else a) }

/-- The closing field update shared by `_end_auction`,
`restore_timers_improved` and `admin_end_auction`: mark ended, stamp
`ended_at`, and if a winning bid exists copy its bidder and amount into
`winner_id` / `current_price` (otherwise both are left untouched). -/
def applyClosure (now : Int) (winningBid : Option Bid) (a : Auction) : Auction :=
  match winningBid with
  | some w => { a with status := "ended", endedAt := some now,
                       winnerId := some w.userId, currentPrice := w.amount }
  | none => { a with status := "ended", endedAt := some now }

/-- `AuctionTimerManager._end_auction` (`utils/timer.py` lines 238-316), the
`Close(auctionId)` procedure: reload the auction guarded by
`status = 'active'` (under `with_for_update`); if it is absent the call is a
no-op; otherwise determine the winning bid by `ORDER BY amount DESC LIMIT 1`
and apply the terminal update.  Messaging side effects are outside the
store and are not modelled. -/
def endAuction (db : DB) (aid : Nat) (now : Int) : DB :=
  match findActiveAuction db aid with
  | none => db
  | some _ =>
      updateAuction db aid (applyClosure now (topBidByAmount (bidsFor db aid)))

/-! ## Basic laws of the queries -/

lemma topBidByAmount_eq_none {l : List Bid} :
    topBidByAmount l = none ↔ l = [] := by
  cases l with
  | nil => simp [topBidByAmount]
  | cons b bs =>
    cases hbs : topBidByAmount bs with
    | none => simp [topBidByAmount, hbs]
    | some c =>
      simp only [topBidByAmount, hbs]
      by_cases hgt : b.amount < c.amount
      · simp [if_pos hgt]
      · simp [if_neg hgt]

lemma topBidByAmount_mem {l : List Bid} {t : Bid}
    (h : topBidByAmount l = some t) : t ∈ l := by
  induction l with
  | nil => simp [topBidByAmount] at h
  | cons b bs ih =>
    cases hbs : topBidByAmount bs with
    | none =>
      simp only [topBidByAmount, hbs, Option.some.injEq] at h
      subst h; exact List.mem_cons_self _ _
    | some c =>
      simp only [topBidByAmount, hbs] at h
      by_cases hgt : b.amount < c.amount
      · rw [if_pos hgt] at h
        injection h with h; subst h
        exact List.mem_cons_of_mem _ (ih hbs)
      · rw [if_neg hgt] at h
        injection h with h; subst h
        exact List.mem_cons_self _ _

lemma topBidByAmount_le {l : List Bid} {t b : Bid}
    (h : topBidByAmount l = some t) (hb : b ∈ l) : b.amount ≤ t.amount := by
  induction l generalizing t with
  | nil => simp at hb
  | cons c cs ih =>
    cases hcs : topBidByAmount cs with
    | none =>
      have hnil : cs = [] := topBidByAmount_eq_none.mp hcs
      subst hnil
      simp only [topBidByAmount, Option.some.injEq] at h
      subst h
      rcases List.mem_cons.mp hb with hb | hb
      · subst hb; exact le_refl _
      · simp at hb
    | some d =>
      simp only [topBidByAmount, hcs] at h
      by_cases hgt : c.amount < d.amount
      · rw [if_pos hgt] at h
        injection h with h; subst h
        rcases List.mem_cons.mp hb with hb | hb
        · subst hb; exact le_of_lt hgt
        · exact ih hcs hb
      · rw [if_neg hgt] at h
        injection h with h; subst h
        rcases List.mem_cons.mp hb with hb | hb
        · subst hb; exact le_refl _
        · exact le_trans (ih hcs hb) (not_lt.mp hgt)

/-- Filtering out the bids of a user who does not own the chosen maximal bid
does not change the result of `ORDER BY amount DESC LIMIT 1`.  This is the
reason the "previous leading bid" that `process_bid_safe` returns (computed
with `Bid.user_id != user.id`) coincides with the leading bid before the
insert, given that the self-outbid check has already ruled out the leader
being this user. -/
lemma topBidByAmount_filter_ne {l : List Bid} {t : Bid} (uid : Nat)
    (h : topBidByAmount l = some t) (ht : t.userId ≠ uid) :
    topBidByAmount (l.filter (fun b => !(b.userId == uid))) = some t := by
  induction l with
  | nil => simp [topBidByAmount] at h
  | cons b bs ih =>
    cases hbs : topBidByAmount bs with
    | none =>
      simp only [topBidByAmount, hbs, Option.some.injEq] at h
      subst h
      have : bs = [] := topBidByAmount_eq_none.mp hbs
      subst this
      simp [List.filter_cons, ht, topBidByAmount]
    | some c =>
      simp only [topBidByAmount, hbs] at h
      by_cases hgt : b.amount < c.amount
      · -- the tail's maximum wins strictly
        rw [if_pos hgt] at h
        injection h with h; subst h
        have htail := ih hbs
        by_cases hb : b.userId = uid
        · simp [List.filter_cons, hb, htail]
        · simp only [List.filter_cons]
          have hkeep : (!(b.userId == uid)) = true := by simp [hb]
          rw [hkeep]
          simp only [topBidByAmount, htail, if_pos hgt]
      · -- the head survives the comparison
        rw [if_neg hgt] at h
        injection h with h; subst h
        simp only [List.filter_cons]
        have hkeep : (!(b.userId == uid)) = true := by simp [ht]
        rw [hkeep]
        simp only [topBidByAmount]
        cases hft : topBidByAmount (bs.filter (fun x => !(x.userId == uid))) with
        | none => rfl
        | some d =>
          have hdmem : d ∈ bs.filter (fun x => !(x.userId == uid)) :=
            topBidByAmount_mem hft
          have hdbs : d ∈ bs := List.mem_of_mem_filter hdmem
          have hdc : d.amount ≤ c.amount := topBidByAmount_le hbs hdbs
          have hnd : ¬ b.amount < d.amount :=
            not_lt.mpr (le_trans hdc (not_lt.mp hgt))
          simp [hnd]

/-- In `endAuction`, every stored row keeps its identity and no row ever
becomes `'active'`; hence after closing an auction no active row with its id
remains. -/
lemma findActiveAuction_endAuction_self (db : DB) (aid : Nat) (now : Int) :
    findActiveAuction (endAuction db aid now) aid = none := by
  unfold endAuction
  cases h : findActiveAuction db aid with
  | none => exact h
  | some a =>
    unfold findActiveAuction updateAuction
    rw [List.find?_eq_none]
    intro x hx
    rcases List.mem_map.mp hx with ⟨y, _, rfl⟩
    by_cases hy : y.id == aid
    · simp only [hy, if_pos]
      unfold applyClosure
      cases topBidByAmount (bidsFor db aid) <;> simp
    · simp only [hy, if_neg, Bool.false_eq_true, not_false_eq_true, ite_false]
      simp at hy
      simp [hy]

/-- When no active row with the given id exists, `endAuction` is the
identity on the store (the "already closed/deleted" no-op branch). -/
lemma endAuction_no_active {db : DB} {aid : Nat} (now : Int)
    (h : findActiveAuction db aid = none) : endAuction db aid now = db := by
  unfold endAuction
  rw [h]

/-- `endAuction` never turns an inactive (or absent) auction id active. -/
lemma findActiveAuction_endAuction_other {db : DB} {aid : Nat} (aid' : Nat)
    (now : Int) (h : findActiveAuction db aid = none) :
    findActiveAuction (endAuction db aid' now) aid = none := by
  unfold endAuction
  cases h' : findActiveAuction db aid' with
  | none => exact h
  | some a =>
    unfold findActiveAuction updateAuction
    rw [List.find?_eq_none]
    intro x hx
    rcases List.mem_map.mp hx with ⟨y, hy, rfl⟩
    have hyn : ¬ (y.id == aid && y.status == "active") = true := by
      unfold findActiveAuction at h
      exact List.find?_eq_none.mp h y hy
    by_cases hid : y.id == aid'
    · simp only [hid, if_pos]
      unfold applyClosure
      cases topBidByAmount (bidsFor db aid') <;> simp
    · simp only [hid, if_neg, Bool.false_eq_true, not_false_eq_true, ite_false]
      exact hyn

/-- **C3.** `Close(auctionId)` is idempotent: after one `endAuction` call no
active row with that id remains, so a second invocation reloads the auction,
finds it not `'active'`, and returns as a no-op — the stored state after the
second call is exactly the state after the first, and the terminal
Active-to-Ended transition happens at most once. -/
theorem C3_close_idempotent (db : DB) (aid : Nat) (t1 t2 : Int) :
    findActiveAuction (endAuction db aid t1) aid = none ∧
    endAuction (endAuction db aid t1) aid t2 = endAuction db aid t1 := by
  exact ⟨findActiveAuction_endAuction_self db aid t1,
    endAuction_no_active t2 (findActiveAuction_endAuction_self db aid t1)⟩

/-! ## The bid-acceptance transaction (`process_bid_safe`) -/

/-- Outcome of a bid submission; each rejection constructor corresponds to
one distinct user-visible rejection message of `process_bid_safe`. -/
inductive BidOutcome where
  /-- "Аукцион не найден или завершен!" — no `'active'` row with this id. -/
  | rejectedNotFoundOrEnded
  /-- "Вы не подтвердили правила! …" — unknown or unconfirmed user. -/
  | rejectedNotConfirmed
  /-- "Минимальная ставка: … ₽" — below `current_price + step_price`. -/
  | rejectedBelowMin (minNextBid : Int)
  /-- "Вы уже лидируете в этом аукционе! …" — the top bid is the bidder's. -/
  | rejectedAlreadyLeading
  /-- Success; carries the previous top bid for the outbid notification. -/
  | accepted (previousTopBid : Option Bid)
deriving DecidableEq, Repr

/-- The commit half of `process_bid_safe` (`handlers/auction.py` lines
69-98): insert the `Bid` row, set `current_price = amount`,
`last_bid_time = now`, `ends_at = last_bid_time + timeout`, and fetch the
previous top bid with `Bid.user_id != user.id` (the freshly added row is not
visible to that query: the session has `autoflush=False`). -/
def processBidCommit (db : DB) (auctionId : Nat) (user : User) (amount : Int)
    (now timeout : Int) (newBidId : Nat) : DB × BidOutcome :=
  let newBid : Bid :=
    { id := newBidId, auctionId := auctionId, userId := user.id,
      amount := amount, createdAt := now }
  let db' := updateAuction { db with bids := db.bids ++ [newBid] } auctionId
      (fun a => { a with currentPrice := amount, lastBidTime := now,
                         endsAt := some (now + timeout) })
  let previousTopBid :=
    topBidByAmount ((bidsFor db auctionId).filter (fun b => !(b.userId == user.id)))
  (db', .accepted previousTopBid)

/-- `process_bid_safe` (`handlers/auction.py` lines 22-109): the
read-validate-write sequence executed under the `with_for_update` row lock.
The retry loop around it only repeats the very same transaction after a
storage exception and is not part of the store semantics. -/
def processBidSafe (db : DB) (auctionId telegramUserId : Nat) (amount : Int)
    (now timeout : Int) (newBidId : Nat) : DB × BidOutcome :=
  match findActiveAuction db auctionId with
  | none => (db, .rejectedNotFoundOrEnded)
  | some auction =>
    match findUserByTelegramId db telegramUserId with
    | none => (db, .rejectedNotConfirmed)
    | some user =>
      if !user.isConfirmed then (db, .rejectedNotConfirmed)
      else
        let minNextBid := auction.currentPrice + auction.stepPrice
        if amount < minNextBid then (db, .rejectedBelowMin minNextBid)
        else
          match topBidByAmount (bidsFor db auctionId) with
          | some topBid =>
            if topBid.userId == user.id then (db, .rejectedAlreadyLeading)
            else processBidCommit db auctionId user amount now timeout newBidId
          | none => processBidCommit db auctionId user amount now timeout newBidId

/-- Modelled from the claim (C1) wording of `PlaceBid`: the preconditions in
their stated order — auction exists and is Active; bidder is a recognized,
confirmed participant; `amount ≥ currentPrice + stepPrice`; the current
leading bid does not already belong to this bidder — each failure a distinct
rejection; on success insert the Bid row, set `currentPrice = amount`,
`lastBidTime`, `endsAt = lastBidTime + timeoutDuration`, and return the
previous leading bid (if any). -/
def PlaceBidSpec (db : DB) (auctionId telegramUserId : Nat) (amount : Int)
    (now timeout : Int) (newBidId : Nat) : DB × BidOutcome :=
  match findActiveAuction db auctionId with
  | none => (db, .rejectedNotFoundOrEnded)
  | some auction =>
    match findUserByTelegramId db telegramUserId with
    | none => (db, .rejectedNotConfirmed)
    | some user =>
      if user.isConfirmed then
        if auction.currentPrice + auction.stepPrice ≤ amount then
          if Option.any (fun t => t.userId == user.id)
               (topBidByAmount (bidsFor db auctionId)) then
            (db, .rejectedAlreadyLeading)
          else
            ({ db with
                bids := db.bids ++
                  [{ id := newBidId, auctionId := auctionId, userId := user.id,
                     amount := amount, createdAt := now }],
                auctions := db.auctions.map (fun a =>
                  if a.id == auctionId then
                    { a with currentPrice := amount, lastBidTime := now,
                             endsAt := some (now + timeout) }
                  else a) },
             .accepted (topBidByAmount (bidsFor db auctionId)))
        else (db, .rejectedBelowMin (auction.currentPrice + auction.stepPrice))
      else (db, .rejectedNotConfirmed)

/-- **C1.** `process_bid_safe` implements `PlaceBid` exactly as the claim
states it: the four preconditions are checked in the claimed order, each
failure yields its distinct rejection, and on success the transaction
inserts the Bid row, sets `currentPrice = amount`, `lastBidTime = now`,
`endsAt = lastBidTime + timeoutDuration` and returns the previous leading
bid (if any).  The interesting step is the last conjunct of the success
case: the source fetches the previous leader with a query that excludes the
bidder's own rows, which coincides with the overall previous leading bid
because the self-outbid check has already ruled out the leader being this
bidder. -/
theorem C1_placeBid_matches_spec (db : DB) (auctionId telegramUserId : Nat)
    (amount : Int) (now timeout : Int) (newBidId : Nat) :
    processBidSafe db auctionId telegramUserId amount now timeout newBidId =
      PlaceBidSpec db auctionId telegramUserId amount now timeout newBidId := by
  unfold processBidSafe PlaceBidSpec
  cases ha : findActiveAuction db auctionId with
  | none => rfl
  | some auction =>
    cases hu : findUserByTelegramId db telegramUserId with
    | none => rfl
    | some user =>
      cases hc : user.isConfirmed with
      | false => simp [hc]
      | true =>
        simp only [hc, Bool.not_true, Bool.false_eq_true, if_false, if_true]
        by_cases hmin : amount < auction.currentPrice + auction.stepPrice
        · rw [if_pos hmin, if_neg (not_le.mpr hmin)]
        · rw [if_neg hmin, if_pos (not_lt.mp hmin)]
          cases htop : topBidByAmount (bidsFor db auctionId) with
          | none =>
            have hempty : bidsFor db auctionId = [] :=
              topBidByAmount_eq_none.mp htop
            simp only [Option.any_none, Bool.false_eq_true, if_false]
            unfold processBidCommit
            simp [hempty, topBidByAmount, updateAuction]
          | some topBid =>
            by_cases hself : topBid.userId = user.id
            · simp [hself]
            · have hne : (topBid.userId == user.id) = false := by simp [hself]
              simp only [hne, Bool.false_eq_true, if_false, Option.any_some]
              unfold processBidCommit
              simp only [updateAuction, Prod.mk.injEq, BidOutcome.accepted.injEq]
              exact ⟨trivial, topBidByAmount_filter_ne user.id htop hself⟩

/-! ## Sequences of bid submissions (for the monotonic-price invariant) -/

/-- One bid submission: the callback data of `process_bid`
(the `bid:id:amount` callback data of a Telegram user), plus the submission time
and the primary key the store will assign to the row if it is inserted. -/
structure BidRequest where
  telegramUserId : Nat
  amount : Int
  now : Int
  newBidId : Nat
deriving DecidableEq, Repr

/-- Run a sequence of bid submissions against one auction, one serialized
`process_bid_safe` transaction after another. -/
def runBids (db : DB) (aid : Nat) (timeout : Int) : List BidRequest → DB
  | [] => db
  | r :: rs =>
      runBids (processBidSafe db aid r.telegramUserId r.amount r.now timeout
        r.newBidId).1 aid timeout rs

/-- The amounts of the accepted bids of a submission sequence, in order. -/
def acceptedAmounts (db : DB) (aid : Nat) (timeout : Int) :
    List BidRequest → List Int
  | [] => []
  | r :: rs =>
    match (processBidSafe db aid r.telegramUserId r.amount r.now timeout
        r.newBidId).2 with
    | .accepted _ =>
        r.amount :: acceptedAmounts (processBidSafe db aid r.telegramUserId
          r.amount r.now timeout r.newBidId).1 aid timeout rs
    | _ =>
        acceptedAmounts (processBidSafe db aid r.telegramUserId r.amount
          r.now timeout r.newBidId).1 aid timeout rs

lemma runBids_cons (db : DB) (aid : Nat) (timeout : Int) (r : BidRequest)
    (rs : List BidRequest) :
    runBids db aid timeout (r :: rs) =
      runBids (processBidSafe db aid r.telegramUserId r.amount r.now timeout
        r.newBidId).1 aid timeout rs := rfl

/-- Every `process_bid_safe` transaction either accepts the bid or leaves
the store untouched. -/
lemma processBidSafe_fst (db : DB) (aid tid : Nat) (amt now timeout : Int)
    (nid : Nat) :
    (∃ p, (processBidSafe db aid tid amt now timeout nid).2 = .accepted p) ∨
    ((processBidSafe db aid tid amt now timeout nid).1 = db ∧
      ∀ p, (processBidSafe db aid tid amt now timeout nid).2 ≠ .accepted p) := by
  cases ha : findActiveAuction db aid with
  | none =>
    exact Or.inr ⟨by simp [processBidSafe, ha], by simp [processBidSafe, ha]⟩
  | some a =>
    cases hu : findUserByTelegramId db tid with
    | none =>
      exact Or.inr ⟨by simp [processBidSafe, ha, hu],
        by simp [processBidSafe, ha, hu]⟩
    | some u =>
      cases hc : u.isConfirmed with
      | false =>
        exact Or.inr ⟨by simp [processBidSafe, ha, hu, hc],
          by simp [processBidSafe, ha, hu, hc]⟩
      | true =>
        by_cases hmin : amt < a.currentPrice + a.stepPrice
        · exact Or.inr ⟨by simp [processBidSafe, ha, hu, hc, hmin],
            by simp [processBidSafe, ha, hu, hc, hmin]⟩
        · cases htop : topBidByAmount (bidsFor db aid) with
          | none =>
            exact Or.inl ⟨topBidByAmount
              ((bidsFor db aid).filter (fun b => !(b.userId == u.id))),
              by simp [processBidSafe, ha, hu, hc, hmin, htop, processBidCommit]⟩
          | some t =>
            by_cases hself : (t.userId == u.id) = true
            · exact Or.inr ⟨by simp [processBidSafe, ha, hu, hc, hmin, htop, hself],
                by simp [processBidSafe, ha, hu, hc, hmin, htop, hself]⟩
            · exact Or.inl ⟨topBidByAmount
                ((bidsFor db aid).filter (fun b => !(b.userId == u.id))),
                by simp [processBidSafe, ha, hu, hc, hmin, htop, hself,
                  processBidCommit]⟩

/-- The `UPDATE` of a bid-accepting transaction, seen through the guarded
auction load: the updated row is found, with the same id and status. -/
lemma find?_condMap (l : List Auction) (aid : Nat) (f : Auction → Auction)
    (hf : ∀ x, (f x).id = x.id ∧ (f x).status = x.status) :
    (l.map (fun a => if a.id == aid then f a else a)).find?
        (fun a => a.id == aid && a.status == "active") =
      (l.find? (fun a => a.id == aid && a.status == "active")).map
        (fun a => if a.id == aid then f a else a) := by
  induction l with
  | nil => rfl
  | cons b bs ih =>
    have hpred : ((if b.id == aid then f b else b).id == aid &&
        (if b.id == aid then f b else b).status == "active") =
        (b.id == aid && b.status == "active") := by
      by_cases hid : (b.id == aid) = true
      · simp only [hid, if_true, (hf b).1, (hf b).2]
      · simp only [hid, Bool.false_eq_true, if_false]
    simp only [List.map_cons, List.find?_cons]
    rw [hpred]
    cases hb : (b.id == aid && b.status == "active")
    · simpa using ih
    · simp

lemma findActiveAuction_updateAuction (db : DB) (aid : Nat)
    (f : Auction → Auction)
    (hf : ∀ x, (f x).id = x.id ∧ (f x).status = x.status) :
    findActiveAuction (updateAuction db aid f) aid =
      (findActiveAuction db aid).map f := by
  unfold findActiveAuction updateAuction
  rw [find?_condMap db.auctions aid f hf]
  cases h : db.auctions.find? (fun a => a.id == aid && a.status == "active") with
  | none => rfl
  | some a =>
    have hp := List.find?_some h
    have hid : (a.id == aid) = true := Bool.and_elim_left hp
    rw [Option.map_some', Option.map_some', if_pos hid]

/-- A bid-accepting transaction raised the price to exactly the accepted
amount, which passed the `current_price + step_price` floor. -/
lemma processBidSafe_accepted_state {db : DB} {aid tid : Nat}
    {amt now timeout : Int} {nid : Nat} {a : Auction} {p : Option Bid}
    (ha : findActiveAuction db aid = some a)
    (hout : (processBidSafe db aid tid amt now timeout nid).2 = .accepted p) :
    a.currentPrice + a.stepPrice ≤ amt ∧
    findActiveAuction (processBidSafe db aid tid amt now timeout nid).1 aid =
      some { a with currentPrice := amt, lastBidTime := now,
                    endsAt := some (now + timeout) } := by
  have hcommit : ∀ u : User,
      findActiveAuction (processBidCommit db aid u amt now timeout nid).1 aid =
        some { a with currentPrice := amt, lastBidTime := now,
                      endsAt := some (now + timeout) } := by
    intro u
    unfold processBidCommit
    have hupd : findActiveAuction (updateAuction
        { db with bids := db.bids ++
            ([{ id := nid, auctionId := aid, userId := u.id, amount := amt,
                createdAt := now }] : List Bid) } aid
        (fun a => { a with currentPrice := amt, lastBidTime := now,
                           endsAt := some (now + timeout) })) aid =
        (findActiveAuction db aid).map
          (fun a => { a with currentPrice := amt, lastBidTime := now,
                             endsAt := some (now + timeout) }) :=
      findActiveAuction_updateAuction _ aid _ (fun x => ⟨rfl, rfl⟩)
    rw [hupd, ha, Option.map_some']
  cases hu : findUserByTelegramId db tid with
  | none =>
    have h2 : (processBidSafe db aid tid amt now timeout nid).2 =
        .rejectedNotConfirmed := by simp [processBidSafe, ha, hu]
    rw [h2] at hout; cases hout
  | some u =>
    cases hc : u.isConfirmed with
    | false =>
      have h2 : (processBidSafe db aid tid amt now timeout nid).2 =
          .rejectedNotConfirmed := by simp [processBidSafe, ha, hu, hc]
      rw [h2] at hout; cases hout
    | true =>
      by_cases hmin : amt < a.currentPrice + a.stepPrice
      · have h2 : (processBidSafe db aid tid amt now timeout nid).2 =
            .rejectedBelowMin (a.currentPrice + a.stepPrice) := by
          simp [processBidSafe, ha, hu, hc, hmin]
        rw [h2] at hout; cases hout
      · cases htop : topBidByAmount (bidsFor db aid) with
        | none =>
          have h1 : (processBidSafe db aid tid amt now timeout nid).1 =
              (processBidCommit db aid u amt now timeout nid).1 := by
            simp [processBidSafe, ha, hu, hc, hmin, htop]
          exact ⟨not_lt.mp hmin, by rw [h1]; exact hcommit u⟩
        | some t =>
          by_cases hself : (t.userId == u.id) = true
          · have h2 : (processBidSafe db aid tid amt now timeout nid).2 =
                .rejectedAlreadyLeading := by
              simp [processBidSafe, ha, hu, hc, hmin, htop, hself]
            rw [h2] at hout; cases hout
          · have h1 : (processBidSafe db aid tid amt now timeout nid).1 =
                (processBidCommit db aid u amt now timeout nid).1 := by
              simp [processBidSafe, ha, hu, hc, hmin, htop, hself]
            exact ⟨not_lt.mp hmin, by rw [h1]; exact hcommit u⟩

lemma acceptedAmounts_cons_accepted {db : DB} {aid : Nat} {timeout : Int}
    {r : BidRequest} {rs : List BidRequest} {p : Option Bid}
    (h : (processBidSafe db aid r.telegramUserId r.amount r.now timeout
        r.newBidId).2 = .accepted p) :
    acceptedAmounts db aid timeout (r :: rs) =
      r.amount :: acceptedAmounts (processBidSafe db aid r.telegramUserId
        r.amount r.now timeout r.newBidId).1 aid timeout rs := by
  simp only [acceptedAmounts, h]

lemma acceptedAmounts_cons_rejected {db : DB} {aid : Nat} {timeout : Int}
    {r : BidRequest} {rs : List BidRequest}
    (h : ∀ p, (processBidSafe db aid r.telegramUserId r.amount r.now timeout
        r.newBidId).2 ≠ .accepted p) :
    acceptedAmounts db aid timeout (r :: rs) =
      acceptedAmounts (processBidSafe db aid r.telegramUserId r.amount r.now
        timeout r.newBidId).1 aid timeout rs := by
  cases hout : (processBidSafe db aid r.telegramUserId r.amount r.now timeout
      r.newBidId).2 with
  | rejectedNotFoundOrEnded => simp only [acceptedAmounts, hout]
  | rejectedNotConfirmed => simp only [acceptedAmounts, hout]
  | rejectedBelowMin m => simp only [acceptedAmounts, hout]
  | rejectedAlreadyLeading => simp only [acceptedAmounts, hout]
  | accepted p => exact absurd hout (h p)

lemma getLast?_getD_cons {α : Type _} (x d : α) (l : List α) :
    ((x :: l).getLast?).getD d = (l.getLast?).getD x := by
  cases l with
  | nil => rfl
  | cons y ys =>
    rw [List.getLast?_cons_cons]
    cases h : (y :: ys).getLast? with
    | none =>
      exact absurd (List.getLast?_eq_none_iff.mp h) (List.cons_ne_nil y ys)
    | some z => rfl

/-- **C2.** Over any sequence of serialized bid submissions against one
auction: the auction stays Active with unchanged `startPrice`/`stepPrice`;
`currentPrice` is non-decreasing; every accepted amount is at least the
`currentPrice + stepPrice` in force when it was accepted (the `Chain'`
conjunct, whose links say `previous + step ≤ next`); and `currentPrice`
always equals the amount of the most recent accepted bid, or the initial
`currentPrice` — `startPrice` at creation — when no bid was accepted. -/
theorem C2_monotonic_price (db : DB) (aid : Nat) (timeout : Int)
    (reqs : List BidRequest) (a : Auction)
    (ha : findActiveAuction db aid = some a) (hstep : 0 ≤ a.stepPrice) :
    ∃ a', findActiveAuction (runBids db aid timeout reqs) aid = some a' ∧
      a'.status = "active" ∧
      a'.startPrice = a.startPrice ∧
      a'.stepPrice = a.stepPrice ∧
      a.currentPrice ≤ a'.currentPrice ∧
      a'.currentPrice =
        ((acceptedAmounts db aid timeout reqs).getLast?).getD a.currentPrice ∧
      List.Chain' (fun p q => p + a.stepPrice ≤ q)
        (a.currentPrice :: acceptedAmounts db aid timeout reqs) := by
  induction reqs generalizing db a with
  | nil =>
    refine ⟨a, ha, ?_, rfl, rfl, le_refl _, by simp [acceptedAmounts, runBids],
      by simp [acceptedAmounts]⟩
    have hp := List.find?_some ha
    have hst : (a.status == "active") = true := Bool.and_elim_right hp
    exact beq_iff_eq.mp hst
  | cons r rs ih =>
    rcases processBidSafe_fst db aid r.telegramUserId r.amount r.now timeout
        r.newBidId with ⟨p, hout⟩ | ⟨hdb, hrej⟩
    · obtain ⟨hle, hfind⟩ := processBidSafe_accepted_state ha hout
      obtain ⟨a', h1, h2, h3, h4, h5, h6, h7⟩ := ih _ _ hfind hstep
      refine ⟨a', by rw [runBids_cons]; exact h1, h2, h3, h4, ?_, ?_, ?_⟩
      · calc a.currentPrice ≤ a.currentPrice + a.stepPrice :=
              le_add_of_nonneg_right hstep
          _ ≤ r.amount := hle
          _ ≤ a'.currentPrice := h5
      · rw [acceptedAmounts_cons_accepted hout, getLast?_getD_cons]
        exact h6
      · rw [acceptedAmounts_cons_accepted hout]
        exact List.chain'_cons.mpr ⟨hle, h7⟩
    · obtain ⟨a', h1, h2, h3, h4, h5, h6, h7⟩ := ih db a ha hstep
      refine ⟨a', ?_, h2, h3, h4, h5, ?_, ?_⟩
      · rw [runBids_cons, hdb]; exact h1
      · rw [acceptedAmounts_cons_rejected hrej, hdb]; exact h6
      · rw [acceptedAmounts_cons_rejected hrej, hdb]; exact h7

/-- Concrete auction used by the C2 witness: fresh, `currentPrice =
startPrice = 100`, step 10. -/
def auctionW2 : Auction :=
  { id := 1, startPrice := 100, stepPrice := 10, currentPrice := 100,
    status := "active", winnerId := none, lastBidTime := 0, createdAt := 0,
    endsAt := some 240, endedAt := none }

/-- Concrete store used by the C2 witness. -/
def dbW2 : DB :=
  { auctions := [auctionW2], bids := [],
    users := [{ id := 1, telegramId := 11, isConfirmed := true },
              { id := 2, telegramId := 22, isConfirmed := true }] }

/-- Concrete submission sequence used by the C2 witness. -/
def reqsW2 : List BidRequest :=
  [{ telegramUserId := 11, amount := 110, now := 1, newBidId := 1 },
   { telegramUserId := 22, amount := 125, now := 2, newBidId := 2 }]

/-- Witness for C2 at a concrete store and submission sequence. -/
theorem C2_monotonic_price_witness :
    ∃ a', findActiveAuction (runBids dbW2 1 240 reqsW2) 1 = some a' ∧
      a'.status = "active" ∧
      a'.startPrice = auctionW2.startPrice ∧
      a'.stepPrice = auctionW2.stepPrice ∧
      auctionW2.currentPrice ≤ a'.currentPrice ∧
      a'.currentPrice =
        ((acceptedAmounts dbW2 1 240 reqsW2).getLast?).getD
          auctionW2.currentPrice ∧
      List.Chain' (fun p q => p + auctionW2.stepPrice ≤ q)
        (auctionW2.currentPrice :: acceptedAmounts dbW2 1 240 reqsW2) :=
  C2_monotonic_price dbW2 1 240 reqsW2 auctionW2 (by decide) (by decide)

/-! ## Winner determination at closure (C4) -/

/-- Modelled from the claim's ordering for C4: bid `b` outranks bid `c`
under `(amount desc, createdAt asc)` — higher amount first, ties on amount
broken in favour of the earlier `createdAt`. -/
def bidOutranks (b c : Bid) : Bool :=
  decide (c.amount < b.amount) ||
    (b.amount == c.amount && decide (b.createdAt < c.createdAt))

/-- Modelled from the claim for C4: the top-ranked bid under
`(amount desc, createdAt asc)`. -/
def specTopBid : List Bid → Option Bid
  | [] => none
  | b :: bs =>
    match specTopBid bs with
    | none => some b
    | some c => if bidOutranks c b then some c else some b

/-- When no two bids of the list share an amount, the source's
tie-break-free `ORDER BY amount DESC LIMIT 1` agrees with the claim's
`(amount desc, createdAt asc)` ranking. -/
lemma topBidByAmount_eq_specTopBid {l : List Bid}
    (h : l.Pairwise (fun b c => b.amount ≠ c.amount)) :
    topBidByAmount l = specTopBid l := by
  induction l with
  | nil => rfl
  | cons b bs ih =>
    have hb := (List.pairwise_cons.mp h).1
    have hbs := (List.pairwise_cons.mp h).2
    have htail := ih hbs
    cases hs : specTopBid bs with
    | none => simp only [topBidByAmount, specTopBid, htail, hs]
    | some c =>
      have hc : c ∈ bs := topBidByAmount_mem (htail.trans hs)
      have hne : b.amount ≠ c.amount := hb c hc
      simp only [topBidByAmount, specTopBid, htail, hs]
      by_cases hgt : b.amount < c.amount
      · rw [if_pos hgt, if_pos (by simp [bidOutranks, hgt])]
      · rw [if_neg hgt, if_neg (by simp [bidOutranks, hgt, Ne.symm hne])]

/-- With unique keys, `find?` by key recovers exactly a given member. -/
lemma find?_key_of_mem {α : Type _} (key : α → Nat) {l : List α}
    (hnd : (l.map key).Nodup) {x : α} (hx : x ∈ l) :
    l.find? (fun y => key y == key x) = some x := by
  induction l with
  | nil => cases hx
  | cons b bs ih =>
    rw [List.map_cons, List.nodup_cons] at hnd
    rcases List.mem_cons.mp hx with rfl | hx'
    · simp [List.find?_cons]
    · have hbfalse : (key b == key x) = false := by
        simp only [beq_eq_false_iff_ne, ne_eq]
        intro hkk
        exact hnd.1 (hkk ▸ List.mem_map_of_mem key hx')
      simp only [List.find?_cons, hbfalse]
      exact ih hnd.2 hx'

/-- Under the primary-key constraint on `auctions.id`, the row found by the
`status = 'active'` guarded load is the row the plain by-id load finds. -/
lemma findAuction_of_findActive {db : DB} {aid : Nat} {a : Auction}
    (hnd : (db.auctions.map Auction.id).Nodup)
    (ha : findActiveAuction db aid = some a) :
    findAuction db aid = some a := by
  have hmem : a ∈ db.auctions := List.mem_of_find?_eq_some ha
  have hp := List.find?_some ha
  have hid : a.id = aid := beq_iff_eq.mp (Bool.and_elim_left hp)
  have hfind := find?_key_of_mem Auction.id hnd hmem
  unfold findAuction
  rw [← hid]
  exact hfind

/-- `find?` by id commutes with the conditional row update, for any update
that preserves the id column. -/
lemma find?_condMap_id (l : List Auction) (aid : Nat) (f : Auction → Auction)
    (hf : ∀ x, (f x).id = x.id) :
    (l.map (fun a => if a.id == aid then f a else a)).find?
        (fun a => a.id == aid) =
      (l.find? (fun a => a.id == aid)).map
        (fun a => if a.id == aid then f a else a) := by
  induction l with
  | nil => rfl
  | cons b bs ih =>
    have hpred : ((if b.id == aid then f b else b).id == aid) =
        (b.id == aid) := by
      by_cases hid : (b.id == aid) = true
      · simp only [hid, if_true, hf b]
      · simp only [hid, Bool.false_eq_true, if_false]
    simp only [List.map_cons, List.find?_cons]
    rw [hpred]
    cases hb : (b.id == aid)
    · simpa using ih
    · simp [beq_iff_eq.mp hb]

/-- After `endAuction` finds an active row, the by-id load returns that row
with the closing update applied. -/
lemma findAuction_endAuction {db : DB} {aid : Nat} {a : Auction} (now : Int)
    (hnd : (db.auctions.map Auction.id).Nodup)
    (ha : findActiveAuction db aid = some a) :
    findAuction (endAuction db aid now) aid =
      some (applyClosure now (topBidByAmount (bidsFor db aid)) a) := by
  have hfa : findAuction db aid = some a := findAuction_of_findActive hnd ha
  have hid : a.id = aid := by
    have hp := List.find?_some ha
    exact beq_iff_eq.mp (Bool.and_elim_left hp)
  have hend : endAuction db aid now =
      updateAuction db aid (applyClosure now (topBidByAmount (bidsFor db aid))) := by
    simp [endAuction, ha]
  rw [hend]
  unfold findAuction updateAuction
  rw [find?_condMap_id db.auctions aid
    (applyClosure now (topBidByAmount (bidsFor db aid)))
    (fun x => by unfold applyClosure; cases topBidByAmount (bidsFor db aid) <;> rfl)]
  unfold findAuction at hfa
  rw [hfa, Option.map_some', if_pos (beq_iff_eq.mpr hid)]

/-- **C4 (amended).** At closure of an Active auction whose bids carry
pairwise distinct amounts — the only situation in which the source's
tie-break-free `ORDER BY amount DESC LIMIT 1` is deterministic —
`winner_id` is set to the bidder of the top-ranked bid under
`(amount desc, createdAt asc)` and `current_price` to that winning amount;
with zero bids, `winner_id` and `current_price` are left untouched.  (The
claim's further promise that ties on amount are broken in favour of the
earliest bid is refuted by `C4_close_winner_counterexample`.) -/
theorem C4_close_winner (db : DB) (aid : Nat) (now : Int) (a : Auction)
    (hnd : (db.auctions.map Auction.id).Nodup)
    (ha : findActiveAuction db aid = some a)
    (hd : (bidsFor db aid).Pairwise (fun b c => b.amount ≠ c.amount)) :
    (∀ w, specTopBid (bidsFor db aid) = some w →
      findAuction (endAuction db aid now) aid =
        some { a with status := "ended", endedAt := some now,
                      winnerId := some w.userId, currentPrice := w.amount }) ∧
    (specTopBid (bidsFor db aid) = none →
      findAuction (endAuction db aid now) aid =
        some { a with status := "ended", endedAt := some now }) := by
  have hfe := findAuction_endAuction now hnd ha
  rw [topBidByAmount_eq_specTopBid hd] at hfe
  constructor
  · intro w hw
    rw [hw] at hfe
    exact hfe
  · intro hw
    rw [hw] at hfe
    exact hfe

/-- The auction of the C4 counterexample: Active, two bids already tied at
150 (amount ties are defensively covered by the claim). -/
def auctionX4 : Auction :=
  { id := 1, startPrice := 100, stepPrice := 10, currentPrice := 150,
    status := "active", winnerId := none, lastBidTime := 5, createdAt := 0,
    endsAt := some 245, endedAt := none }

/-- The store of the C4 counterexample.  The bid of user 2
(`createdAt = 5`) sits before the earlier bid of user 1 (`createdAt = 3`)
in row order: `ORDER BY amount DESC` fixes no order between rows of equal
amount, so this return order is admissible. -/
def dbX4 : DB :=
  { auctions := [auctionX4],
    bids := [{ id := 2, auctionId := 1, userId := 2, amount := 150,
               createdAt := 5 },
             { id := 1, auctionId := 1, userId := 1, amount := 150,
               createdAt := 3 }],
    users := [{ id := 1, telegramId := 11, isConfirmed := true },
              { id := 2, telegramId := 22, isConfirmed := true }] }

/-- **C4, counterexample.** The claim's ordering ranks the earlier bid of
user 1 (createdAt 3) on top of the amount tie, but closure crowns user 2:
the winner query orders by amount only, so the claimed deterministic
earliest-wins tie-break does not hold in the code. -/
theorem C4_close_winner_counterexample :
    (specTopBid (bidsFor dbX4 1)).map Bid.userId = some 1 ∧
    (findAuction (endAuction dbX4 1 300) 1).map Auction.winnerId =
      some (some 2) := by decide

/-- The auction of the C4 witness store (bid amounts all distinct). -/
def auctionW4 : Auction :=
  { id := 1, startPrice := 100, stepPrice := 10, currentPrice := 120,
    status := "active", winnerId := none, lastBidTime := 2, createdAt := 0,
    endsAt := some 242, endedAt := none }

/-- Witness store for C4 (distinct amounts): the single 120-bid of user 2
wins and sets the price. -/
def dbW4 : DB :=
  { auctions := [auctionW4],
    bids := [{ id := 1, auctionId := 1, userId := 2, amount := 120,
               createdAt := 2 },
             { id := 2, auctionId := 1, userId := 1, amount := 110,
               createdAt := 1 }],
    users := [{ id := 1, telegramId := 11, isConfirmed := true },
              { id := 2, telegramId := 22, isConfirmed := true }] }

/-- Witness for the amended C4 theorem at a concrete store: closing `dbW4`
crowns user 2 with winning amount 120. -/
theorem C4_close_winner_witness :
    findAuction (endAuction dbW4 1 300) 1 =
      some { id := 1, startPrice := 100, stepPrice := 10, currentPrice := 120,
             status := "ended", winnerId := some 2, lastBidTime := 2,
             createdAt := 0, endsAt := some 242, endedAt := some 300 } :=
  (C4_close_winner dbW4 1 300 auctionW4 (by decide) (by decide)
    (by decide)).1
    { id := 1, auctionId := 1, userId := 2, amount := 120, createdAt := 2 }
    (by decide)

/-! ## Startup restoration (`restore_timers_improved`, C5) -/

/-- The per-auction body of `restore_timers_improved` (`utils/timer.py`
lines 91-136), acting on one Active row: take the stored `ends_at` (or the
persisted default `created_at + timeout` when it is NULL); if time remains,
leave the row as is (a timer is armed instead); otherwise close it inline —
mark `'ended'`, stamp `ended_at = now` and determine the winner by
`ORDER BY amount DESC LIMIT 1`, exactly the `applyClosure` update. -/
def restoreOne (timeout now : Int) (bids : List Bid) (a : Auction) : Auction :=
  if a.status == "active" then
    if now < a.endsAt.getD (a.createdAt + timeout) then
      { a with endsAt := some (a.endsAt.getD (a.createdAt + timeout)) }
    else
      applyClosure now (topBidByAmount bids)
        { a with endsAt := some (a.endsAt.getD (a.createdAt + timeout)) }
  else a

/-- The timer `restore_timers_improved` arms for one row: only for an
Active auction whose deadline still lies in the future, targeted exactly at
the stored `ends_at` (the subsequent `start_auction_timer` call re-checks
the same conditions against the same store state and arms the task). -/
def restoreTimerOf (timeout now : Int) (a : Auction) : Option (Nat × Int) :=
  if a.status == "active" then
    if now < a.endsAt.getD (a.createdAt + timeout) then
      some (a.id, a.endsAt.getD (a.createdAt + timeout))
    else none
  else none

/-- `restore_timers_improved` over the whole store: every Active auction is
either closed in place or gets a timer armed for its stored deadline; the
in-memory timer map starts empty and ends up holding exactly the armed
handles. -/
def restoreTimersImproved (timeout now : Int) (db : DB) :
    DB × List (Nat × Int) :=
  ({ db with auctions :=
      db.auctions.map (fun a => restoreOne timeout now (bidsFor db a.id) a) },
   db.auctions.filterMap (restoreTimerOf timeout now))

lemma auction_set_endsAt_self {a : Auction} {t : Int} (he : a.endsAt = some t) :
    { a with endsAt := some t } = a := by
  cases a
  simp only at he
  subst he
  rfl

lemma applyClosure_fields (now : Int) (w : Option Bid) (a : Auction) :
    (applyClosure now w a).status = "ended" ∧
    (applyClosure now w a).endedAt = some now := by
  cases w <;> simp [applyClosure]

lemma restoreTimerOf_lt {timeout now : Int} {x : Auction} {p : Nat × Int}
    (h : restoreTimerOf timeout now x = some p) : now < p.2 := by
  unfold restoreTimerOf at h
  by_cases hs : (x.status == "active") = true
  · rw [if_pos hs] at h
    by_cases hlt : now < x.endsAt.getD (x.createdAt + timeout)
    · rw [if_pos hlt] at h
      injection h with h
      subst h
      exact hlt
    · rw [if_neg hlt] at h
      cases h
  · rw [if_neg hs] at h
    cases h

/-- **C5.** Startup restoration computes the remaining time of every
persisted Active auction from its stored `ends_at`: an auction whose
deadline is not in the future is closed on the spot — marked `'ended'`
with the winner determined by the closure update, no timer armed and none
ever fired — while an auction with time remaining is left untouched and
gets a timer armed for exactly its stored `ends_at` (and every armed timer
targets a strictly future deadline). -/
theorem C5_restore_closes_expired (timeout now t : Int) (db : DB)
    (a : Auction) (ha : a ∈ db.auctions) (hs : a.status = "active")
    (he : a.endsAt = some t) :
    restoreOne timeout now (bidsFor db a.id) a ∈
        (restoreTimersImproved timeout now db).1.auctions ∧
    (t ≤ now →
      restoreOne timeout now (bidsFor db a.id) a =
        applyClosure now (topBidByAmount (bidsFor db a.id)) a ∧
      (restoreOne timeout now (bidsFor db a.id) a).status = "ended" ∧
      (restoreOne timeout now (bidsFor db a.id) a).endedAt = some now ∧
      restoreTimerOf timeout now a = none) ∧
    (now < t →
      restoreOne timeout now (bidsFor db a.id) a = a ∧
      restoreTimerOf timeout now a = some (a.id, t) ∧
      (a.id, t) ∈ (restoreTimersImproved timeout now db).2) ∧
    (∀ p ∈ (restoreTimersImproved timeout now db).2, now < p.2) := by
  have hsb : (a.status == "active") = true := beq_iff_eq.mpr hs
  have hgetD : a.endsAt.getD (a.createdAt + timeout) = t := by rw [he]; rfl
  refine ⟨?_, ?_, ?_, ?_⟩
  · exact List.mem_map_of_mem _ ha
  · intro hle
    have hnlt : ¬ now < a.endsAt.getD (a.createdAt + timeout) := by
      rw [hgetD]; exact not_lt.mpr hle
    have h1 : restoreOne timeout now (bidsFor db a.id) a =
        applyClosure now (topBidByAmount (bidsFor db a.id)) a := by
      unfold restoreOne
      rw [if_pos hsb, if_neg hnlt, hgetD, auction_set_endsAt_self he]
    refine ⟨h1, ?_, ?_, ?_⟩
    · rw [h1]; exact (applyClosure_fields now _ a).1
    · rw [h1]; exact (applyClosure_fields now _ a).2
    · unfold restoreTimerOf
      rw [if_pos hsb, if_neg hnlt]
  · intro hlt
    have hlt' : now < a.endsAt.getD (a.createdAt + timeout) := by
      rw [hgetD]; exact hlt
    refine ⟨?_, ?_, ?_⟩
    · unfold restoreOne
      rw [if_pos hsb, if_pos hlt', hgetD, auction_set_endsAt_self he]
    · unfold restoreTimerOf
      rw [if_pos hsb, if_pos hlt', hgetD]
    · refine List.mem_filterMap.mpr ⟨a, ha, ?_⟩
      unfold restoreTimerOf
      rw [if_pos hsb, if_pos hlt', hgetD]
  · intro p hp
    rcases List.mem_filterMap.mp hp with ⟨x, _, hx⟩
    exact restoreTimerOf_lt hx

/-- The expired Active auction of the C5 witness (deadline 100, now 150). -/
def auctionW5 : Auction :=
  { id := 1, startPrice := 100, stepPrice := 10, currentPrice := 110,
    status := "active", winnerId := none, lastBidTime := 1, createdAt := 0,
    endsAt := some 100, endedAt := none }

/-- The C5 witness store. -/
def dbW5 : DB :=
  { auctions := [auctionW5],
    bids := [{ id := 1, auctionId := 1, userId := 1, amount := 110,
               createdAt := 1 }],
    users := [{ id := 1, telegramId := 11, isConfirmed := true }] }

/-- Witness for C5: restoration at `now = 150` closes the auction whose
stored deadline 100 already passed, and arms no timer for it. -/
theorem C5_restore_closes_expired_witness :
    (restoreOne 240 150 (bidsFor dbW5 1) auctionW5).status = "ended" ∧
    restoreTimerOf 240 150 auctionW5 = none :=
  ⟨((C5_restore_closes_expired 240 150 100 dbW5 auctionW5 (by decide)
      (by decide) (by decide)).2.1 (by decide)).2.1,
   ((C5_restore_closes_expired 240 150 100 dbW5 auctionW5 (by decide)
      (by decide) (by decide)).2.1 (by decide)).2.2.2⟩

/-! ## Timer scheduling (`start_auction_timer`, C6) -/

/-- Result of one `start_auction_timer` call: the store (changed only when
an already-expired deadline makes the call fire `Close` immediately), the
in-memory map of live timer handles (auction id ↦ armed deadline), and
whether `Close` was fired on the spot. -/
structure ScheduleResult where
  db : DB
  timers : List (Nat × Int)
  firedImmediately : Bool
deriving DecidableEq, Repr

/-- `AuctionTimerManager.start_auction_timer` (`utils/timer.py` lines
31-70), executed under `self.lock`: first cancel the existing handle for
the id (after cancellation the old task's only action is to remove itself
from the map — it can no longer invoke `Close`); then reload the auction
and skip scheduling when it is no longer Active; if the deadline has
already passed, fire `_end_auction` immediately; otherwise arm a new task
for `ends_at`.  `timers` holds the live (non-cancelled) handles. -/
def startAuctionTimer (db : DB) (timers : List (Nat × Int))
    (auctionId : Nat) (endsAt now : Int) : ScheduleResult :=
  match findActiveAuction db auctionId with
  | none => ⟨db, timers.filter (fun x => !(x.1 == auctionId)), false⟩
  | some _ =>
    if endsAt - now ≤ 0 then
      ⟨endAuction db auctionId now,
       timers.filter (fun x => !(x.1 == auctionId)), true⟩
    else
      ⟨db, (auctionId, endsAt) :: timers.filter (fun x => !(x.1 == auctionId)),
       false⟩

lemma mem_cancelHandles {timers : List (Nat × Int)} {aid : Nat}
    {x : Nat × Int} (hm : x ∈ timers.filter (fun y => !(y.1 == aid))) :
    x.1 ≠ aid := by
  have hp := (List.mem_filter.mp hm).2
  simpa using hp

lemma cancelHandles_nodup {timers : List (Nat × Int)} {aid : Nat}
    (hnd : (timers.map Prod.fst).Nodup) :
    ((timers.filter (fun y => !(y.1 == aid))).map Prod.fst).Nodup :=
  List.Nodup.sublist (List.Sublist.map _ (List.filter_sublist _)) hnd

/-- **C6.** At most one live timer handle per auction id: any handle for
the scheduled id in the resulting map is the freshly armed one targeting
the new deadline (so a previously armed earlier-deadline handle can never
fire the old `Close`); key-uniqueness of the map is preserved; when the
auction is no longer Active the call cancels the old handle and arms
nothing; when the deadline has already passed it fires `Close` immediately
(leaving the auction no longer Active) and keeps no handle for the id; and
when the deadline lies in the future it arms exactly the new handle without
touching the store. -/
theorem C6_schedule_exclusive (db : DB) (timers : List (Nat × Int))
    (aid : Nat) (endsAt now : Int) :
    (∀ x ∈ (startAuctionTimer db timers aid endsAt now).timers,
        x.1 = aid → x = (aid, endsAt)) ∧
    ((timers.map Prod.fst).Nodup →
      ((startAuctionTimer db timers aid endsAt now).timers.map
        Prod.fst).Nodup) ∧
    (findActiveAuction db aid = none →
      startAuctionTimer db timers aid endsAt now =
        ⟨db, timers.filter (fun y => !(y.1 == aid)), false⟩) ∧
    (findActiveAuction db aid ≠ none → endsAt - now ≤ 0 →
      (startAuctionTimer db timers aid endsAt now).firedImmediately = true ∧
      (startAuctionTimer db timers aid endsAt now).db = endAuction db aid now ∧
      findActiveAuction (startAuctionTimer db timers aid endsAt now).db aid =
        none ∧
      ∀ x ∈ (startAuctionTimer db timers aid endsAt now).timers, x.1 ≠ aid) ∧
    (findActiveAuction db aid ≠ none → 0 < endsAt - now →
      (startAuctionTimer db timers aid endsAt now).db = db ∧
      (startAuctionTimer db timers aid endsAt now).firedImmediately = false ∧
      (aid, endsAt) ∈ (startAuctionTimer db timers aid endsAt now).timers) := by
  cases ha : findActiveAuction db aid with
  | none =>
    have hred : startAuctionTimer db timers aid endsAt now =
        ⟨db, timers.filter (fun y => !(y.1 == aid)), false⟩ := by
      simp [startAuctionTimer, ha]
    rw [hred]
    refine ⟨?_, ?_, fun _ => rfl, ?_, ?_⟩
    · intro x hm hfst; exact absurd hfst (mem_cancelHandles hm)
    · intro hnd; exact cancelHandles_nodup hnd
    · intro hne; exact absurd rfl hne
    · intro hne; exact absurd rfl hne
  | some a =>
    by_cases hle : endsAt - now ≤ 0
    · have hred : startAuctionTimer db timers aid endsAt now =
          ⟨endAuction db aid now,
           timers.filter (fun y => !(y.1 == aid)), true⟩ := by
        simp [startAuctionTimer, ha, hle]
      rw [hred]
      refine ⟨?_, ?_, ?_, ?_, ?_⟩
      · intro x hm hfst; exact absurd hfst (mem_cancelHandles hm)
      · intro hnd; exact cancelHandles_nodup hnd
      · intro h; exact Option.noConfusion h
      · intro _ _
        exact ⟨rfl, rfl, findActiveAuction_endAuction_self db aid now,
          fun x hm => mem_cancelHandles hm⟩
      · intro _ hpos; exact absurd hpos (not_lt.mpr hle)
    · have hred : startAuctionTimer db timers aid endsAt now =
          ⟨db, (aid, endsAt) :: timers.filter (fun y => !(y.1 == aid)),
           false⟩ := by
        simp [startAuctionTimer, ha, hle]
      rw [hred]
      refine ⟨?_, ?_, ?_, ?_, ?_⟩
      · intro x hm hfst
        rcases List.mem_cons.mp hm with rfl | hm'
        · rfl
        · exact absurd hfst (mem_cancelHandles hm')
      · intro hnd
        rw [List.map_cons, List.nodup_cons]
        refine ⟨?_, cancelHandles_nodup hnd⟩
        intro hmem
        rcases List.mem_map.mp hmem with ⟨x, hx, hfst⟩
        exact mem_cancelHandles hx hfst
      · intro h; exact Option.noConfusion h
      · intro _ hle2; exact absurd hle2 hle
      · intro _ _; exact ⟨rfl, rfl, List.mem_cons_self _ _⟩

/-- The Active auction of the C6 witness store. -/
def auctionW6 : Auction :=
  { id := 1, startPrice := 100, stepPrice := 10, currentPrice := 100,
    status := "active", winnerId := none, lastBidTime := 0, createdAt := 0,
    endsAt := some 300, endedAt := none }

/-- The C6 witness store: one Active auction with a future deadline. -/
def dbW6 : DB :=
  { auctions := [auctionW6], bids := [], users := [] }

/-- Witness for C6: rescheduling auction 1 from the stale handle `(1, 50)`
to deadline 300 at `now = 100` arms the new handle and leaves the store
alone. -/
theorem C6_schedule_exclusive_witness :
    (startAuctionTimer dbW6 [(1, 50)] 1 300 100).db = dbW6 ∧
    (startAuctionTimer dbW6 [(1, 50)] 1 300 100).firedImmediately = false ∧
    (1, 300) ∈ (startAuctionTimer dbW6 [(1, 50)] 1 300 100).timers :=
  (C6_schedule_exclusive dbW6 [(1, 50)] 1 300 100).2.2.2.2
    (by decide) (by decide)

/-! ## The reconciliation sweep (`check_and_complete_expired_auctions`, C9) -/

/-- `SELECT * FROM auctions WHERE status = 'active' AND ends_at <= :now`
(`utils/timer.py` lines 468-471; a NULL `ends_at` never satisfies the SQL
comparison). -/
def expiredActiveAuctions (db : DB) (now : Int) : List Auction :=
  db.auctions.filter (fun a =>
    a.status == "active" &&
      match a.endsAt with
      | some t => decide (t ≤ now)
      | none => false)

/-- `AuctionTimerManager.check_and_complete_expired_auctions`
(`utils/timer.py` lines 460-490): query the expired Active auctions, invoke
`_end_auction` on each, and return how many were found (the periodic
reconciler task runs exactly this on every pass). -/
def checkAndCompleteExpiredAuctions (db : DB) (now : Int) : DB × Nat :=
  ((expiredActiveAuctions db now).foldl (fun d a => endAuction d a.id now) db,
   (expiredActiveAuctions db now).length)

lemma foldl_endAuction_preserves_none {now : Int} :
    ∀ (l : List Auction) (db : DB) (aid : Nat),
      findActiveAuction db aid = none →
      findActiveAuction (l.foldl (fun d a => endAuction d a.id now) db) aid =
        none := by
  intro l
  induction l with
  | nil => intro db aid h; exact h
  | cons b bs ih =>
    intro db aid h
    exact ih _ _ (findActiveAuction_endAuction_other b.id now h)

lemma foldl_endAuction_closes {now : Int} :
    ∀ (l : List Auction) (db : DB) (a : Auction), a ∈ l →
      findActiveAuction (l.foldl (fun d a => endAuction d a.id now) db) a.id =
        none := by
  intro l
  induction l with
  | nil => intro db a h; cases h
  | cons b bs ih =>
    intro db a h
    rcases List.mem_cons.mp h with rfl | h'
    · exact foldl_endAuction_preserves_none bs _ _
        (findActiveAuction_endAuction_self db a.id now)
    · exact ih _ _ h'

/-- **C9.** Each reconciler integrity pass queries exactly the Active
auctions whose stored `ends_at` is at or before the current time (the ↔
conjunct), and invokes `Close` on every auction of that set — after the
pass none of them is Active any longer, so an expired-but-still-Active
auction is repaired by the next pass without manual intervention. -/
theorem C9_reconciler_closes_expired (db : DB) (now : Int) :
    (∀ a ∈ db.auctions,
      (a ∈ expiredActiveAuctions db now ↔
        a.status = "active" ∧ ∃ t, a.endsAt = some t ∧ t ≤ now)) ∧
    (checkAndCompleteExpiredAuctions db now).2 =
      (expiredActiveAuctions db now).length ∧
    (∀ a ∈ expiredActiveAuctions db now,
      findActiveAuction (checkAndCompleteExpiredAuctions db now).1 a.id =
        none) := by
  refine ⟨?_, rfl, ?_⟩
  · intro a ha
    unfold expiredActiveAuctions
    rw [List.mem_filter]
    constructor
    · rintro ⟨_, hp⟩
      have h1 := Bool.and_elim_left hp
      have h2 := Bool.and_elim_right hp
      refine ⟨beq_iff_eq.mp h1, ?_⟩
      cases he : a.endsAt with
      | none => simp [he] at h2
      | some t =>
        simp only [he, decide_eq_true_eq] at h2
        exact ⟨t, rfl, h2⟩
    · rintro ⟨hs, t, he, hle⟩
      refine ⟨ha, ?_⟩
      simp [he, hs, hle]
  · intro a ha
    exact foldl_endAuction_closes _ db a ha

/-- The expired auction of the C9 witness store. -/
def auctionW9 : Auction :=
  { id := 1, startPrice := 100, stepPrice := 10, currentPrice := 110,
    status := "active", winnerId := none, lastBidTime := 1, createdAt := 0,
    endsAt := some 100, endedAt := none }

/-- The still-running auction of the C9 witness store. -/
def auctionW9b : Auction :=
  { id := 2, startPrice := 50, stepPrice := 5, currentPrice := 50,
    status := "active", winnerId := none, lastBidTime := 0, createdAt := 0,
    endsAt := some 500, endedAt := none }

def dbW9 : DB :=
  { auctions := [auctionW9, auctionW9b],
    bids := [{ id := 1, auctionId := 1, userId := 1, amount := 110,
               createdAt := 1 }],
    users := [{ id := 1, telegramId := 11, isConfirmed := true }] }

/-- Witness for C9: the pass at `now = 160` closes expired auction 1. -/
theorem C9_reconciler_closes_expired_witness :
    findActiveAuction (checkAndCompleteExpiredAuctions dbW9 160).1
      auctionW9.id = none :=
  (C9_reconciler_closes_expired dbW9 160).2.2 auctionW9 (by decide)

/-! ## Auction deletion (`admin_delete_auction`, C7) -/

/-- Outcome of `admin_delete_auction`. -/
inductive DeleteOutcome where
  /-- "Аукцион не найден!" — no row with this id. -/
  | notFoundRejected
  /-- The handler crashed with `NameError` and the transaction rolled back.
  -/
  | nameErrorRolledBack
deriving DecidableEq, Repr

/-- `admin_delete_auction` (`handlers/admin.py` lines 528-597).  The
handler loads the auction by id — with no check of `status` or
`winner_id` — and then, inside `async with session.begin()`, stages
`DELETE` statements for notifications, subscriptions, bids and the auction
itself.  The second statement references `AuctionSubscription`, a name the
module never imports (`handlers/admin.py` line 17 imports only `Auction,
User, Bid, Notification`), so evaluating it raises `NameError`; the
transaction context and `get_db` roll everything back and re-raise.  Net
store effect: none, for every input. -/
def adminDeleteAuction (db : DB) (auctionId : Nat) : DB × DeleteOutcome :=
  match findAuction db auctionId with
  | none => (db, .notFoundRejected)
  | some _ => (db, .nameErrorRolledBack)

/-- An Active, winnerless auction with one bid — the exact situation in
which the claim says `DeleteAuction` must hard-delete. -/
def auctionX7 : Auction :=
  { id := 1, startPrice := 100, stepPrice := 10, currentPrice := 110,
    status := "active", winnerId := none, lastBidTime := 1, createdAt := 0,
    endsAt := some 241, endedAt := none }

/-- The C7 failing-input store. -/
def dbX7 : DB :=
  { auctions := [auctionX7],
    bids := [{ id := 1, auctionId := 1, userId := 1, amount := 110,
               createdAt := 1 }],
    users := [{ id := 1, telegramId := 11, isConfirmed := true }] }

/-- **C7 (code bug).** The claim describes the intended contract — delete
only while Active and winnerless, refuse otherwise — but the handler never
checks `status` or `winner_id` at all, and its body always raises
`NameError` (`AuctionSubscription` is not imported in
`handlers/admin.py`), so the transaction rolls back and **no** auction is
ever hard-deleted: on the Active, winnerless auction of `dbX7` — precisely
the input the claim says must be deleted — the store is returned
unchanged, auction and bids still present. -/
theorem C7_delete_auction_never_deletes :
    (∀ (db : DB) (aid : Nat), (adminDeleteAuction db aid).1 = db) ∧
    (findAuction dbX7 1).map Auction.status = some "active" ∧
    (findAuction dbX7 1).map Auction.winnerId = some none ∧
    adminDeleteAuction dbX7 1 = (dbX7, DeleteOutcome.nameErrorRolledBack) ∧
    (adminDeleteAuction dbX7 1).1.bids = dbX7.bids := by
  refine ⟨?_, by decide, by decide, by decide, by decide⟩
  intro db aid
  unfold adminDeleteAuction
  cases findAuction db aid <;> rfl

/-! ## Auction creation under the active-auction cap (C10) -/

/-- `SELECT COUNT(*) FROM auctions WHERE status = 'active'` (the guard
query of `cmd_admin` and `admin_create_start`). -/
def countActiveAuctions (db : DB) : Nat :=
  (db.auctions.filter (fun a => a.status == "active")).length

/-- `max_active = 20` (`handlers/admin.py` lines 52 and 82). -/
def MAX_ACTIVE_AUCTIONS : Nat := 20

/-- Outcome of the creation entry points. -/
inductive CreateOutcome where
  /-- "⚠️ Достигнут лимит активных аукционов …" -/
  | limitReached (activeCount : Nat)
  | created
deriving DecidableEq, Repr

/-- The creation flow behind `/admin`: `cmd_admin` (`handlers/admin.py`
lines 39-67) and `admin_create_start` (lines 69-96) both count the Active
auctions first and refuse when the count is at least 20; only past that
guard does the FSM reach `process_step_price` (lines 183-296), which
inserts the new row — Active, `current_price = start_price`,
`ends_at = now + timeout`. -/
def adminCreateAuction (db : DB) (newId : Nat) (startPrice stepPrice : Int)
    (now timeout : Int) : DB × CreateOutcome :=
  if countActiveAuctions db ≥ MAX_ACTIVE_AUCTIONS then
    (db, .limitReached (countActiveAuctions db))
  else
    ({ db with auctions := db.auctions ++
        [{ id := newId, startPrice := startPrice, stepPrice := stepPrice,
           currentPrice := startPrice, status := "active", winnerId := none,
           lastBidTime := now, createdAt := now,
           endsAt := some (now + timeout), endedAt := none }] },
     .created)

/-- **C10.** The creation entry points count the Active auctions first and,
at 20 or more, reject without creating anything; below the cap the creation
adds exactly one Active auction — so the Active count never exceeds 20
through the creation interface. -/
theorem C10_active_auction_cap (db : DB) (newId : Nat)
    (startPrice stepPrice now timeout : Int) :
    (countActiveAuctions db ≥ 20 →
      adminCreateAuction db newId startPrice stepPrice now timeout =
        (db, CreateOutcome.limitReached (countActiveAuctions db))) ∧
    (countActiveAuctions db < 20 →
      (adminCreateAuction db newId startPrice stepPrice now timeout).2 =
        CreateOutcome.created ∧
      countActiveAuctions
        (adminCreateAuction db newId startPrice stepPrice now timeout).1 =
        countActiveAuctions db + 1) ∧
    (countActiveAuctions db ≤ 20 →
      countActiveAuctions
        (adminCreateAuction db newId startPrice stepPrice now timeout).1 ≤
        20) := by
  have hcount : ¬ countActiveAuctions db ≥ MAX_ACTIVE_AUCTIONS →
      countActiveAuctions
        (adminCreateAuction db newId startPrice stepPrice now timeout).1 =
        countActiveAuctions db + 1 := by
    intro hneg
    unfold adminCreateAuction
    rw [if_neg hneg]
    unfold countActiveAuctions
    simp [List.filter_append]
  refine ⟨?_, ?_, ?_⟩
  · intro h
    unfold adminCreateAuction MAX_ACTIVE_AUCTIONS
    rw [if_pos h]
  · intro h
    have hneg : ¬ countActiveAuctions db ≥ MAX_ACTIVE_AUCTIONS :=
      not_le.mpr h
    refine ⟨?_, hcount hneg⟩
    unfold adminCreateAuction
    rw [if_neg hneg]
  · intro h
    by_cases hlt : countActiveAuctions db < 20
    · have hneg : ¬ countActiveAuctions db ≥ MAX_ACTIVE_AUCTIONS :=
        not_le.mpr hlt
      rw [hcount hneg]
      omega
    · have hge : countActiveAuctions db ≥ MAX_ACTIVE_AUCTIONS :=
        not_lt.mp hlt
      have hred : adminCreateAuction db newId startPrice stepPrice now
          timeout = (db, CreateOutcome.limitReached (countActiveAuctions db)) := by
        unfold adminCreateAuction
        rw [if_pos hge]
      rw [hred]
      exact h

/-- Witness for C10: creating into an empty store succeeds and yields one
Active auction, within the cap. -/
theorem C10_active_auction_cap_witness :
    (adminCreateAuction { auctions := [], bids := [], users := [] }
        1 100 10 0 240).2 = CreateOutcome.created ∧
    countActiveAuctions
      (adminCreateAuction { auctions := [], bids := [], users := [] }
        1 100 10 0 240).1 = countActiveAuctions
          { auctions := [], bids := [], users := [] } + 1 :=
  (C10_active_auction_cap { auctions := [], bids := [], users := [] }
      1 100 10 0 240).2.1 (by decide)

/-! ## Bid cancellation (`cmd_cancel_bid` / `cancel_bid_confirm`, C8) -/

/-- Outcome of the cancellation flow. -/
inductive CancelOutcome where
  /-- `cmd_cancel_bid` offers no bid: unknown user, no bid in an Active
  auction, or the trailing bid is already outbid.  (The source sends a
  distinct message for each of these.) -/
  | noEligibleBid
  /-- `cancel_bid_confirm` rejects the confirmed id: bid vanished, not the
  caller's bid, or auction no longer Active. -/
  | rejectedAtConfirm
  /-- The bid row was removed. -/
  | cancelled (bid : Bid)
deriving DecidableEq, Repr

/-- `ORDER BY created_at DESC LIMIT 1`: first row, in physical row order,
with maximal `created_at`. -/
def latestBidByCreatedAt : List Bid → Option Bid
  | [] => none
  | b :: bs =>
    match latestBidByCreatedAt bs with
    | none => some b
    | some c => if b.createdAt < c.createdAt then some c else some b

/-- The `JOIN Auction … WHERE Auction.status = 'active'` condition of
`cmd_cancel_bid`: the bid's auction row exists and is Active. -/
def isActiveAuctionId (db : DB) (aid : Nat) : Bool :=
  db.auctions.any (fun a => a.id == aid && a.status == "active")

/-- `SELECT Bid JOIN Auction WHERE Bid.user_id = :uid AND
Auction.status = 'active'`. -/
def userActiveBids (db : DB) (userId : Nat) : List Bid :=
  db.bids.filter (fun b => b.userId == userId && isActiveAuctionId db b.auctionId)

/-- `SELECT COUNT(*) FROM bids WHERE auction_id = :aid AND
created_at > :t` (`handlers/user.py` lines 403-409). -/
def laterBidsCount (db : DB) (aid : Nat) (t : Int) : Nat :=
  (db.bids.filter (fun b => b.auctionId == aid && decide (t < b.createdAt))).length

/-- `SELECT * FROM bids WHERE id = :bid_id`. -/
def findBid (db : DB) (bidId : Nat) : Option Bid :=
  db.bids.find? (fun b => b.id == bidId)

/-- `SELECT * FROM users WHERE id = :uid` (the `Bid.user` relationship). -/
def findUserById (db : DB) (uid : Nat) : Option User :=
  db.users.find? (fun u => u.id == uid)

/-- `cancel_bid_confirm` (`handlers/user.py` lines 431-478): reload the bid
by id, check it belongs to the caller and its auction is still Active, then
`session.delete(bid)` and recompute the auction's price/deadline from
`ORDER BY amount DESC LIMIT 1`.  The session is created with
`autoflush=False` (`database/database.py`), so the pending delete is NOT
flushed before this SELECT: the recompute query still sees every bid row,
including the one being cancelled; the deletion itself only reaches the
store at commit.  The `start_price` fallback branch exists in the source
but can only run when the auction has no bid rows at all — impossible here,
since the bid being cancelled is itself still visible. -/
def cancelBidConfirm (db : DB) (telegramUserId : Nat) (bidId : Nat)
    (timeout : Int) : DB × CancelOutcome :=
  match findBid db bidId with
  | none => (db, .rejectedAtConfirm)
  | some bid =>
    match findUserById db bid.userId with
    | none => (db, .rejectedAtConfirm)
    | some owner =>
      if !(owner.telegramId == telegramUserId) then (db, .rejectedAtConfirm)
      else
        match findAuction db bid.auctionId with
        | none => (db, .rejectedAtConfirm)
        | some auction =>
          if !(auction.status == "active") then (db, .rejectedAtConfirm)
          else
            match topBidByAmount (bidsFor db bid.auctionId) with
            | some m =>
              (updateAuction
                { db with bids := db.bids.filter (fun c => !(c.id == bid.id)) }
                bid.auctionId
                (fun a => { a with currentPrice := m.amount,
                                   lastBidTime := m.createdAt,
                                   endsAt := some (m.createdAt + timeout) }),
               .cancelled bid)
            | none =>
              (updateAuction
                { db with bids := db.bids.filter (fun c => !(c.id == bid.id)) }
                bid.auctionId
                (fun a => { a with currentPrice := a.startPrice,
                                   lastBidTime := a.createdAt,
                                   endsAt := some (a.createdAt + timeout) }),
               .cancelled bid)

/-- `cmd_cancel_bid` (`handlers/user.py` lines 364-429): pick the caller's
latest bid among Active auctions; offer it for confirmation only when no
later bid exists on that auction.  An unknown caller is auto-registered
and told to confirm the rules; no bid is offered. -/
def cmdCancelBidTarget (db : DB) (telegramUserId : Nat) : Option Bid :=
  match findUserByTelegramId db telegramUserId with
  | none => none
  | some user =>
    match latestBidByCreatedAt (userActiveBids db user.id) with
    | none => none
    | some lastBid =>
      if 0 < laterBidsCount db lastBid.auctionId lastBid.createdAt then none
      else some lastBid

/-- The `CancelLastBid` operation: the command step immediately followed by
the confirmation step against the same store state (the serialized,
race-free execution of the two-message flow). -/
def cancelLastBid (db : DB) (telegramUserId : Nat) (timeout : Int) :
    DB × CancelOutcome :=
  match cmdCancelBidTarget db telegramUserId with
  | none => (db, .noEligibleBid)
  | some b => cancelBidConfirm db telegramUserId b.id timeout

lemma latestBidByCreatedAt_mem {l : List Bid} {t : Bid}
    (h : latestBidByCreatedAt l = some t) : t ∈ l := by
  induction l with
  | nil => simp [latestBidByCreatedAt] at h
  | cons b bs ih =>
    cases hbs : latestBidByCreatedAt bs with
    | none =>
      simp only [latestBidByCreatedAt, hbs, Option.some.injEq] at h
      subst h
      exact List.mem_cons_self _ _
    | some c =>
      simp only [latestBidByCreatedAt, hbs] at h
      by_cases hgt : b.createdAt < c.createdAt
      · rw [if_pos hgt] at h
        injection h with h
        subst h
        exact List.mem_cons_of_mem _ (ih hbs)
      · rw [if_neg hgt] at h
        injection h with h
        subst h
        exact List.mem_cons_self _ _

/-- **C8 (amended).** `CancelLastBid` removes the caller's trailing bid
only if it is unchallenged (no later bid on that auction) and the auction
is still Active — that half of the claim holds — but the recomputation
works on the pre-deletion ledger: because the session has
`autoflush=False`, the recompute query still sees the bid being cancelled,
so `currentPrice`, `lastBidTime` and `endsAt` are set from the top bid
*including* the cancelled one (not from the next-highest remaining bid,
refuted by `C8_cancel_recompute_counterexample`), and the
`startPrice`/creation-time fallback is unreachable. -/
theorem C8_cancel_unchallenged_only (db : DB) (tid : Nat) (timeout : Int)
    (hba : (db.bids.map Bid.id).Nodup)
    (hua : (db.users.map User.id).Nodup)
    (haa : (db.auctions.map Auction.id).Nodup) :
    (∀ b, (cancelLastBid db tid timeout).2 = CancelOutcome.cancelled b →
      b ∈ db.bids ∧
      (∃ u, findUserByTelegramId db tid = some u ∧ b.userId = u.id) ∧
      isActiveAuctionId db b.auctionId = true ∧
      laterBidsCount db b.auctionId b.createdAt = 0 ∧
      (cancelLastBid db tid timeout).1.bids =
        db.bids.filter (fun c => !(c.id == b.id)) ∧
      ∃ m, topBidByAmount (bidsFor db b.auctionId) = some m ∧
        (cancelLastBid db tid timeout).1.auctions =
          db.auctions.map (fun a =>
            if a.id == b.auctionId then
              { a with currentPrice := m.amount, lastBidTime := m.createdAt,
                       endsAt := some (m.createdAt + timeout) }
            else a)) ∧
    ((cancelLastBid db tid timeout).2 = CancelOutcome.noEligibleBid →
      (cancelLastBid db tid timeout).1 = db) := by
  cases hu : findUserByTelegramId db tid with
  | none =>
    have hnone : cancelLastBid db tid timeout = (db, .noEligibleBid) := by
      simp [cancelLastBid, cmdCancelBidTarget, hu]
    rw [hnone]
    exact ⟨fun b hb => (by cases hb), fun _ => rfl⟩
  | some u =>
    cases hlast : latestBidByCreatedAt (userActiveBids db u.id) with
    | none =>
      have hnone : cancelLastBid db tid timeout = (db, .noEligibleBid) := by
        simp [cancelLastBid, cmdCancelBidTarget, hu, hlast]
      rw [hnone]
      exact ⟨fun b hb => (by cases hb), fun _ => rfl⟩
    | some b0 =>
      by_cases hlater : 0 < laterBidsCount db b0.auctionId b0.createdAt
      · have hnone : cancelLastBid db tid timeout = (db, .noEligibleBid) := by
          simp [cancelLastBid, cmdCancelBidTarget, hu, hlast, hlater]
        rw [hnone]
        exact ⟨fun b hb => (by cases hb), fun _ => rfl⟩
      · -- the main path: b0 is offered and confirmed
        have htgt : cmdCancelBidTarget db tid = some b0 := by
          simp [cmdCancelBidTarget, hu, hlast, hlater]
        have hb0ua : b0 ∈ userActiveBids db u.id :=
          latestBidByCreatedAt_mem hlast
        have hb0mem : b0 ∈ db.bids := (List.mem_filter.mp hb0ua).1
        have hb0pred := (List.mem_filter.mp hb0ua).2
        have hb0uid : b0.userId = u.id :=
          beq_iff_eq.mp (Bool.and_elim_left hb0pred)
        have hb0act : isActiveAuctionId db b0.auctionId = true :=
          Bool.and_elim_right hb0pred
        have hfb : findBid db b0.id = some b0 :=
          find?_key_of_mem Bid.id hba hb0mem
        have humem : u ∈ db.users := List.mem_of_find?_eq_some hu
        have hfu : findUserById db b0.userId = some u := by
          unfold findUserById
          rw [hb0uid]
          exact find?_key_of_mem User.id hua humem
        have hu' := hu
        unfold findUserByTelegramId at hu'
        have howner0 := List.find?_some hu'
        have howner : (u.telegramId == tid) = true := howner0
        obtain ⟨a, hamem, hapred⟩ := List.any_eq_true.mp hb0act
        have haid : a.id = b0.auctionId :=
          beq_iff_eq.mp (Bool.and_elim_left hapred)
        have hast : (a.status == "active") = true := Bool.and_elim_right hapred
        have hfa : findAuction db b0.auctionId = some a := by
          unfold findAuction
          rw [← haid]
          exact find?_key_of_mem Auction.id haa hamem
        have hb0bf : b0 ∈ bidsFor db b0.auctionId :=
          List.mem_filter.mpr ⟨hb0mem, by simp⟩
        cases htop : topBidByAmount (bidsFor db b0.auctionId) with
        | none =>
          rw [topBidByAmount_eq_none.mp htop] at hb0bf
          cases hb0bf
        | some m =>
          have hred : cancelLastBid db tid timeout =
              (updateAuction
                { db with bids := db.bids.filter (fun c => !(c.id == b0.id)) }
                b0.auctionId
                (fun x => { x with currentPrice := m.amount,
                                   lastBidTime := m.createdAt,
                                   endsAt := some (m.createdAt + timeout) }),
               CancelOutcome.cancelled b0) := by
            simp [cancelLastBid, htgt, cancelBidConfirm, hfb, hfu, howner,
              hfa, hast, htop]
          rw [hred]
          refine ⟨?_, fun h => by cases h⟩
          intro b hb
          have hb' : b0 = b := by
            injection hb
          subst hb'
          exact ⟨hb0mem, ⟨u, rfl, hb0uid⟩, hb0act,
            Nat.eq_zero_of_not_pos hlater, rfl, m, htop, rfl⟩

/-- The Active auction of the C8 stores: price 120 after two bids. -/
def auctionX8 : Auction :=
  { id := 1, startPrice := 100, stepPrice := 10, currentPrice := 120,
    status := "active", winnerId := none, lastBidTime := 2, createdAt := 0,
    endsAt := some 242, endedAt := none }

/-- C8 store: user 2 bid 110 at time 1, then user 1 bid 120 at time 2;
user 1 (telegram id 11) now cancels the trailing 120 bid. -/
def dbX8 : DB :=
  { auctions := [auctionX8],
    bids := [{ id := 1, auctionId := 1, userId := 2, amount := 110,
               createdAt := 1 },
             { id := 2, auctionId := 1, userId := 1, amount := 120,
               createdAt := 2 }],
    users := [{ id := 1, telegramId := 11, isConfirmed := true },
              { id := 2, telegramId := 22, isConfirmed := true }] }

/-- **C8, counterexample.** After user 1 cancels the trailing 120 bid, the
highest *remaining* bid is 110 — the claim requires `currentPrice` to be
recomputed to it — yet the store keeps `currentPrice = 120`: the recompute
query ran against the pre-deletion ledger (`autoflush=False`), so the
cancelled bid priced its own cancellation. -/
theorem C8_cancel_recompute_counterexample :
    (cancelLastBid dbX8 11 240).2 =
      CancelOutcome.cancelled { id := 2, auctionId := 1, userId := 1,
                                amount := 120, createdAt := 2 } ∧
    (cancelLastBid dbX8 11 240).1.bids.map Bid.amount = [110] ∧
    (findAuction (cancelLastBid dbX8 11 240).1 1).map Auction.currentPrice =
      some 120 ∧
    (topBidByAmount (bidsFor (cancelLastBid dbX8 11 240).1 1)).map
      Bid.amount = some 110 := by decide

/-- Witness for the amended C8 theorem at the concrete store `dbX8`. -/
theorem C8_cancel_unchallenged_only_witness :
    ({ id := 2, auctionId := 1, userId := 1, amount := 120,
       createdAt := 2 } : Bid) ∈ dbX8.bids ∧
    (∃ u, findUserByTelegramId dbX8 11 = some u ∧ 1 = u.id) ∧
    isActiveAuctionId dbX8 1 = true ∧
    laterBidsCount dbX8 1 2 = 0 ∧
    (cancelLastBid dbX8 11 240).1.bids =
      dbX8.bids.filter (fun c => !(c.id == 2)) ∧
    ∃ m, topBidByAmount (bidsFor dbX8 1) = some m ∧
      (cancelLastBid dbX8 11 240).1.auctions =
        dbX8.auctions.map (fun a =>
          if a.id == 1 then
            { a with currentPrice := m.amount, lastBidTime := m.createdAt,
                     endsAt := some (m.createdAt + 240) }
          else a) :=
  (C8_cancel_unchallenged_only dbX8 11 240 (by decide) (by decide)
      (by decide)).1
    { id := 2, auctionId := 1, userId := 1, amount := 120, createdAt := 2 }
    (by decide)

end PitaucBot
